import Mathlib

/-!
Shallow embedding of `src/lib/orchestra.ts` (ai-orchestra).

JavaScript values carried in contexts and event payloads are modelled by the
inductive `Val`.  A run's observable behaviour (history pushes, yielded
events, the `onFinish` call) is modelled as a single `RunAct` trace produced
by `runLoop`, the embedding of the async generator `trackedEvents`.
Asynchrony is erased: handlers are deterministic functions of the context,
and the calls a handler makes to its `dispatch` callback are recorded, in
call order, in the `dispatched` field of the handler's result (in the source
`dispatch` only pushes onto the `customEvents` buffer, so this captures its
whole effect).  `Date.now()` is modelled by an abstract clock counter that
increments at each call.
-/

/-- JSON-like runtime values (JS objects are ordered field lists; `vnull`
stands for both `null` and `undefined`; `vnan` stands for `Number.NaN`). -/
inductive Val where
  | vnull : Val
  | vnan : Val
  | vbool : Bool → Val
  | vnat : Nat → Val
  | vstr : String → Val
  | vlist : List Val → Val
  | vobj : List (String × Val) → Val

/-- JS property access `v.k`: defined on objects, `undefined` otherwise. -/
def getField (v : Val) (k : String) : Option Val :=
  match v with
  | .vobj fs => (fs.find? (fun p => p.1 == k)).map (fun p => p.2)
  | _ => none

/-- JS truthiness of a value. -/
def jsTruthyVal : Val → Bool
  | .vnull => false
  | .vnan => false
  | .vbool b => b
  | .vnat n => n != 0
  | .vstr s => !s.isEmpty
  | .vlist _ => true
  | .vobj _ => true

/-- JS nullish coalescing `v ?? d`. -/
def nullish (v d : Val) : Val :=
  match v with
  | .vnull => d
  | x => x

/-- A context is a JS object: an ordered association list of fields. -/
abbrev Ctx := List (String × Val)

/-- First-match field lookup on a context (JS property access). -/
def lookupKey (c : Ctx) (k : String) : Option Val :=
  (c.find? (fun p => p.1 == k)).map (fun p => p.2)

/-- One step of the JS object-spread construction: assign key `k` to `v`,
updating the existing entry in place when `k` is already a key, appending at
the end otherwise. -/
def setKey (c : Ctx) (k : String) (v : Val) : Ctx :=
  if c.any (fun p => p.1 == k) then
    c.map (fun p => if p.1 == k then (k, v) else p)
  else
    c ++ [(k, v)]

/-- The shallow merge `{ ...prev, ...upd }` at line 168 of the source:
every field of `upd` is assigned, in order, on top of `prev`. -/
def mergeCtx (prev upd : Ctx) : Ctx :=
  upd.foldl (fun acc p => setKey acc p.1 p.2) prev

/-- `OrchestraEvent` (source lines 14-36): transition (with optional `to`),
completion, and custom events. -/
inductive OrchestraEvent where
  | stateTransition : String → Option String → Ctx → OrchestraEvent
  | stateCompletion : String → Ctx → OrchestraEvent
  | customEvent : String → Val → OrchestraEvent

/-- An entry of `run.history` (source lines 122-126): in the source the
field for the state name is called `agent`. -/
structure HistoryEntry where
  agent : String
  context : Ctx
  timestamp : Nat

/-- One observable action of a run: a push onto `history`, a yielded event,
or the invocation of the `onFinish` callback with its argument. -/
inductive RunAct where
  | histPush : HistoryEntry → RunAct
  | emit : OrchestraEvent → RunAct
  | finishCall : HistoryEntry → RunAct

/-- How the generator finishes: normal return, the thrown
`Agent "..." not found` error, or exhaustion of the step budget (modelling
a non-terminating chain of states). -/
inductive RunResult where
  | ok : RunResult
  | stateNotFound : String → RunResult
  | outOfFuel : RunResult

/-- The message of the error thrown at source line 137. -/
def stateNotFoundMessage (agent : String) : String :=
  "Agent \"" ++ agent ++ "\" not found"

/-- A handler's outcome (source `HandlerResult`, lines 4-7), together with
the `(name, data)` pairs the handler passed to `dispatch`, in call order
(`dispatch` only ever pushes onto the `customEvents` buffer, lines 153-160,
so this list is its entire observable effect). -/
structure HandlerResult where
  nextState : Option String
  context : Ctx
  dispatched : List (String × Val)

/-- A handler, deterministic in the context it is invoked with. -/
abbrev Handler := Ctx → HandlerResult

/-- The handler registry: a JS object, i.e. an ordered list of
(state name, handler) entries with distinct keys. -/
abbrev Registry := List (String × Handler)

/-- `handlers[currentAgent]` (source line 135). -/
def lookupHandler (reg : Registry) (s : String) : Option Handler :=
  (reg.find? (fun p => p.1 == s)).map (fun p => p.2)

/-- JS truthiness of `currentAgent` / `nextAgent`: `undefined` and the
empty string are falsy (source lines 134 and 171). -/
def jsTruthy : Option String → Bool
  | none => false
  | some s => !s.isEmpty

/-- The body of `trackedEvents` (source lines 128-204), as a fuel-indexed
trace producer.  Arguments after the registry and the presence flag for
`onFinish`: fuel, `currentAgent` (`none` models `undefined`),
`currentContext`, and the abstract clock. -/
def runLoop (reg : Registry) (hasOnFinish : Bool) :
    Nat → Option String → Ctx → Nat → List RunAct × RunResult
  | 0, _, _, _ => ([], RunResult.outOfFuel)
  | fuel + 1, cur, ctx, t =>
    if jsTruthy cur then
      let s := cur.getD ""
      match lookupHandler reg s with
      | none => ([], RunResult.stateNotFound s)
      | some handler =>
        let res := handler ctx
        let customActs := res.dispatched.map
          (fun p => RunAct.emit (.customEvent p.1 p.2))
        let newCtx := mergeCtx ctx res.context
        let pre := RunAct.histPush ⟨s, ctx, t⟩ ::
          RunAct.emit (.stateTransition s none ctx) :: customActs
        if jsTruthy res.nextState then
          let next := res.nextState.getD ""
          let rest := runLoop reg hasOnFinish fuel (some next) newCtx (t + 1)
          (pre ++ RunAct.emit (.stateTransition s (some next) newCtx) :: rest.1,
           rest.2)
        else
          let fin : HistoryEntry := ⟨s, newCtx, t + 1⟩
          (pre ++ RunAct.histPush fin ::
            RunAct.emit (.stateCompletion s newCtx) ::
            (if hasOnFinish then [RunAct.finishCall fin] else []),
           RunResult.ok)
    else ([], RunResult.ok)

/-- A whole run: the initial state is
`params.agent || Object.keys(handlers)[0]` (source line 131), the clock
starts at 0. -/
def runOrchestra (reg : Registry) (hasOnFinish : Bool) (fuel : Nat)
    (agent : String) (ctx : Ctx) : List RunAct × RunResult :=
  runLoop reg hasOnFinish fuel
    (if agent = "" then (reg.head?).map (fun p => p.1) else some agent) ctx 0

/-- The event yielded by an action, if any. -/
def actionEvent : RunAct → Option OrchestraEvent
  | .emit e => some e
  | _ => none

/-- The events of a trace, in order (the run's event sequence). -/
def eventsOf (acts : List RunAct) : List OrchestraEvent :=
  acts.filterMap actionEvent

/-- The history entry pushed by an action, if any. -/
def actionHist : RunAct → Option HistoryEntry
  | .histPush e => some e
  | _ => none

/-- The history accumulated by a trace, in order. -/
def historyOf (acts : List RunAct) : List HistoryEntry :=
  acts.filterMap actionHist

/-- Whether an action emits a `state_completion` event. -/
def isCompletionAct : RunAct → Bool
  | .emit (.stateCompletion _ _) => true
  | _ => false

/-- Whether an action is an invocation of the `onFinish` callback. -/
def isFinishAct : RunAct → Bool
  | .finishCall _ => true
  | _ => false

/-- JS `String.prototype.includes`: substring containment. -/
def strIncludes (s pat : String) : Bool :=
  (List.range (s.length + 1)).any (fun i => pat.data.isPrefixOf (s.data.drop i))

/-- The fixed event name under which the Stream Adapter forwards every
chunk (source lines 85 and 92). -/
def streamChunkEventName : String := "ai-sdk-stream-chunk"

/-- The test of source lines 87-90: the chunk is a tool call whose
`toolName` contains the marker `handoffTo`. -/
def isHandoffToolCall (c : Val) : Bool :=
  match getField c "type", getField c "toolName" with
  | some (.vstr "tool-call"), some (.vstr n) => strIncludes n "handoffTo"
  | _, _ => false

/-- The synthetic `tool-result` chunk built at source lines 92-98: same
`toolCallId`, `toolName` and `args` as the tool call, fixed result
`'Done'`. -/
def synthToolResult (c : Val) : Val :=
  .vobj [("type", .vstr "tool-result"),
         ("toolCallId", (getField c "toolCallId").getD .vnull),
         ("toolName", (getField c "toolName").getD .vnull),
         ("result", .vstr "Done"),
         ("args", (getField c "args").getD .vnull)]

/-- The dispatches caused by one chunk of the source stream (source lines
80-100): the chunk itself, then, when the handoff test fires, the synthetic
tool result. -/
def dispatchesForChunk (c : Val) : List (String × Val) :=
  (streamChunkEventName, c) ::
    (if isHandoffToolCall c then [(streamChunkEventName, synthToolResult c)]
     else [])

/-- All dispatches of the Stream Adapter's chunk loop, in order. -/
def processStreamDispatches (chunks : List Val) : List (String × Val) :=
  chunks.flatMap dispatchesForChunk

/-- The `console.error` log entries of the chunk loop (source lines 81-83):
one per error-typed chunk, carrying its `error` field. -/
def processStreamLogs (chunks : List Val) : List Val :=
  chunks.filterMap (fun c =>
    match getField c "type" with
    | some (.vstr "error") => some ((getField c "error").getD .vnull)
    | _ => none)

/-- The `{ messages }` object behind `stream.response` (source line 52). -/
structure StreamResponse where
  messages : List Val

/-- The external source accepted by the Stream Adapter (source
`StreamResult`, lines 49-54), with promises replaced by their resolved
values and the chunk iterable by the list of chunks it yields. -/
structure StreamResult where
  finishReason : Option String
  toolCalls : List Val
  response : StreamResponse
  fullStream : List Val

/-- `processStream` (source lines 67-105): the resolved summary together
with the ordered dispatches its chunk loop performed. -/
def processStream (stream : StreamResult) :
    (Option String × List Val × List Val) × List (String × Val) :=
  ((stream.finishReason, stream.toolCalls, stream.response.messages),
   processStreamDispatches stream.fullStream)

/-- A `text-delta` chunk, as the `ai` SDK produces. -/
def textChunk (s : String) : Val :=
  .vobj [("type", .vstr "text-delta"), ("textDelta", .vstr s)]

/-- A `finish` chunk with its reason. -/
def finishChunk (reason : String) : Val :=
  .vobj [("type", .vstr "finish"), ("finishReason", .vstr reason)]

/-- An `error` chunk carrying an error value. -/
def errorChunk (e : Val) : Val :=
  .vobj [("type", .vstr "error"), ("error", e)]

/-- A crude JS `String(v)` used only for error messages. -/
def jsString : Val → String
  | .vnull => "undefined"
  | .vnan => "NaN"
  | .vbool b => if b then "true" else "false"
  | .vnat n => toString n
  | .vstr s => s
  | .vlist _ => ""
  | .vobj _ => "[object Object]"

/-- One record written to the wire by `orchestraToAIStream`.  The imported
`formatDataStreamPart` is external to the repository, so its output is kept
abstract as the (kind, payload) pair it is applied to; the two raw
templates of source lines 319 and 323 get their own constructors. -/
inductive WireFrame where
  | dataStreamPart : String → Val → WireFrame
  | messageAnnotationFrame : Val → WireFrame
  | dataFrame : Val → WireFrame

/-- The chunk types the `switch` of source lines 253-330 recognizes. -/
def knownChunkTypes : List String :=
  ["text-delta", "tool-call-streaming-start", "tool-call-delta", "tool-call",
   "tool-result", "error", "step-start", "step-finish", "reasoning", "finish",
   "message-annotation", "data"]

/-- The `usage` sub-object built at source lines 291-297 and 308-314:
`chunk.usage ? {promptTokens: ... ?? NaN, completionTokens: ... ?? NaN}
: undefined`. -/
def usageVal (chunk : Val) : Val :=
  match getField chunk "usage" with
  | some u =>
    if jsTruthyVal u then
      .vobj [("promptTokens", nullish ((getField u "promptTokens").getD .vnull) .vnan),
             ("completionTokens", nullish ((getField u "completionTokens").getD .vnull) .vnan)]
    else .vnull
  | none => .vnull

/-- The `switch (chunkType)` of source lines 253-330 for a string-typed
chunk type (a JS `switch` over string cases is a chain of `===`
comparisons): each recognized type produces one wire record, any other
string throws `Unknown chunk type`. -/
def encodeTyped (chunk : Val) (t : String) : Except String WireFrame :=
  if t = "text-delta" then
    .ok (.dataStreamPart "text" ((getField chunk "textDelta").getD .vnull))
  else if t = "tool-call-streaming-start" then
    .ok (.dataStreamPart "tool_call_streaming_start" chunk)
  else if t = "tool-call-delta" then
    .ok (.dataStreamPart "tool_call_delta" chunk)
  else if t = "tool-call" then
    .ok (.dataStreamPart "tool_call" chunk)
  else if t = "tool-result" then
    .ok (.dataStreamPart "tool_result" chunk)
  else if t = "error" then
    .ok (.dataStreamPart "error" (.vstr (jsString ((getField chunk "error").getD .vnull))))
  else if t = "step-start" then
    .ok (.dataStreamPart "start_step"
      (.vobj [("messageId", (getField chunk "messageId").getD .vnull)]))
  else if t = "step-finish" then
    .ok (.dataStreamPart "finish_step"
      (.vobj [("finishReason", (getField chunk "finishReason").getD .vnull),
              ("isContinued", nullish ((getField chunk "isContinued").getD .vnull) (.vbool false)),
              ("usage", usageVal chunk)]))
  else if t = "reasoning" then
    .ok (.dataStreamPart "reasoning" ((getField chunk "textDelta").getD .vnull))
  else if t = "finish" then
    .ok (.dataStreamPart "finish_message"
      (.vobj [("finishReason", (getField chunk "finishReason").getD .vnull),
              ("usage", usageVal chunk)]))
  else if t = "message-annotation" then
    .ok (.messageAnnotationFrame ((getField chunk "value").getD .vnull))
  else if t = "data" then
    .ok (.dataFrame ((getField chunk "value").getD .vnull))
  else
    .error ("Unknown chunk type: " ++ t)

/-- The whole `switch`, including the default reached when `chunk.type` is
not a string (`undefined`, a number, ...). -/
def encodeChunk (chunk : Val) : Except String WireFrame :=
  match getField chunk "type" with
  | some (.vstr t) => encodeTyped chunk t
  | other => .error ("Unknown chunk type: " ++ jsString (other.getD .vnull))

/-- Whether the Event Encoder's catalogue covers the chunk's `type`. -/
def chunkTypeKnown (chunk : Val) : Bool :=
  match getField chunk "type" with
  | some (.vstr t) => knownChunkTypes.contains t
  | _ => false

/-- The per-event behaviour of the loop inside `orchestraToAIStream`
(source lines 244-335): only custom events named `ai-sdk-stream-chunk` are
encoded; every other event writes nothing and raises nothing. -/
def encodeOrchestraEvent : OrchestraEvent → Except String (Option WireFrame)
  | .customEvent n data =>
    if n = streamChunkEventName then (encodeChunk data).map some
    else .ok none
  | _ => .ok none

/-- `orchestraToAIStream` over a fully drained event sequence: the wire
records written, or the first encoding error. -/
def orchestraToAIStream : List OrchestraEvent → Except String (List WireFrame)
  | [] => .ok []
  | e :: rest =>
    match encodeOrchestraEvent e with
    | .error m => .error m
    | .ok none => orchestraToAIStream rest
    | .ok (some f) => (orchestraToAIStream rest).map (fun fs => f :: fs)

/-- The counter field of the three-state demo registry. -/
def getCount (c : Ctx) : Nat :=
  match lookupKey c "count" with
  | some (.vnat n) => n
  | _ => 0

/-- The registry `{start→middle, middle→end, end→(terminal)}` of the spec
scenario and of the repository's first test: each handler increments the
counter, `start` dispatches one custom event, `end` also sets a message and
names no next state. -/
def demoReg : Registry :=
  [("start", fun c =>
     ⟨some "middle", [("count", .vnat (getCount c + 1))],
      [("custom-event", .vstr "Starting")]⟩),
   ("middle", fun c =>
     ⟨some "end", [("count", .vnat (getCount c + 1))], []⟩),
   ("end", fun c =>
     ⟨none, [("count", .vnat (getCount c + 1)), ("message", .vstr "Done")],
      []⟩)]

theorem lookupKey_cons (a : String × Val) (c : Ctx) (k : String) :
    lookupKey (a :: c) k = if a.1 == k then some a.2 else lookupKey c k := by
  by_cases h : a.1 = k
  · have hb : (a.1 == k) = true := beq_iff_eq.mpr h
    simp [lookupKey, List.find?_cons, hb]
  · have hb : (a.1 == k) = false := beq_eq_false_iff_ne.mpr h
    simp [lookupKey, List.find?_cons, hb]

theorem lookupKey_replace_ne (c : Ctx) (k : String) (v : Val) (k2 : String)
    (hne : k2 ≠ k) :
    lookupKey (c.map (fun p => if p.1 == k then (k, v) else p)) k2 =
      lookupKey c k2 := by
  have hkk : (k == k2) = false := beq_eq_false_iff_ne.mpr (fun h => hne h.symm)
  induction c with
  | nil => rfl
  | cons a c ih =>
    by_cases ha : a.1 = k
    · have hb : (a.1 == k) = true := beq_iff_eq.mpr ha
      have ha2 : (a.1 == k2) = false := by
        rw [beq_eq_false_iff_ne, ha]
        exact fun h => hne h.symm
      simp only [List.map_cons, hb, if_true, lookupKey_cons, hkk, ha2,
        Bool.false_eq_true, if_false, ih]
    · have hb : (a.1 == k) = false := beq_eq_false_iff_ne.mpr ha
      simp only [List.map_cons, hb, Bool.false_eq_true, if_false,
        lookupKey_cons, ih]

theorem lookupKey_replace_eq (c : Ctx) (k : String) (v : Val)
    (hmem : c.any (fun p => p.1 == k) = true) :
    lookupKey (c.map (fun p => if p.1 == k then (k, v) else p)) k = some v := by
  induction c with
  | nil => simp at hmem
  | cons a c ih =>
    by_cases ha : a.1 = k
    · have hb : (a.1 == k) = true := beq_iff_eq.mpr ha
      simp only [List.map_cons, hb, if_true, lookupKey_cons, beq_self_eq_true]
    · have hb : (a.1 == k) = false := beq_eq_false_iff_ne.mpr ha
      simp only [List.any_cons, hb, Bool.false_or] at hmem
      simp only [List.map_cons, hb, Bool.false_eq_true, if_false,
        lookupKey_cons]
      exact ih hmem

theorem lookupKey_append_single (c : Ctx) (k : String) (v : Val) (k2 : String)
    (hmem : c.any (fun p => p.1 == k) = false) :
    lookupKey (c ++ [(k, v)]) k2 = if k2 = k then some v else lookupKey c k2 := by
  induction c with
  | nil =>
    rw [List.nil_append, lookupKey_cons]
    by_cases h : k2 = k
    · have hb : (k == k2) = true := beq_iff_eq.mpr h.symm
      simp [hb, h]
    · have hb : (k == k2) = false := beq_eq_false_iff_ne.mpr (fun hh => h hh.symm)
      simp [hb, h, lookupKey]
  | cons a c ih =>
    simp only [List.any_cons, Bool.or_eq_false_iff] at hmem
    obtain ⟨ha, hc⟩ := hmem
    have hak : a.1 ≠ k := by
      intro h
      rw [beq_eq_false_iff_ne] at ha
      exact ha h
    rw [List.cons_append, lookupKey_cons, lookupKey_cons]
    by_cases h2 : a.1 = k2
    · have hkk : k2 ≠ k := fun h => hak (h2.trans h)
      have hb : (a.1 == k2) = true := beq_iff_eq.mpr h2
      simp [hb, hkk]
    · have hb : (a.1 == k2) = false := beq_eq_false_iff_ne.mpr h2
      simp only [hb, Bool.false_eq_true, if_false]
      exact ih hc

theorem lookupKey_setKey (c : Ctx) (k : String) (v : Val) (k2 : String) :
    lookupKey (setKey c k v) k2 = if k2 = k then some v else lookupKey c k2 := by
  unfold setKey
  by_cases hmem : c.any (fun p => p.1 == k) = true
  · simp only [hmem, if_true]
    by_cases h2 : k2 = k
    · rw [if_pos h2, h2]
      exact lookupKey_replace_eq c k v hmem
    · rw [if_neg h2]
      exact lookupKey_replace_ne c k v k2 h2
  · have hm : c.any (fun p => p.1 == k) = false := Bool.eq_false_iff.mpr hmem
    simp only [hm, Bool.false_eq_true, if_false]
    exact lookupKey_append_single c k v k2 hm

theorem lookupKey_none_of_not_mem (c : Ctx) (k : String)
    (h : k ∉ c.map Prod.fst) : lookupKey c k = none := by
  induction c with
  | nil => rfl
  | cons a c ih =>
    simp only [List.map_cons, List.mem_cons, not_or] at h
    obtain ⟨h1, h2⟩ := h
    have hb : (a.1 == k) = false := beq_eq_false_iff_ne.mpr (fun hh => h1 hh.symm)
    rw [lookupKey_cons]
    simp only [hb, Bool.false_eq_true, if_false]
    exact ih h2

theorem lookupKey_mergeCtx (u : Ctx) (hu : (u.map Prod.fst).Nodup) (p : Ctx)
    (k : String) :
    (∀ v, lookupKey u k = some v → lookupKey (mergeCtx p u) k = some v) ∧
    (lookupKey u k = none → lookupKey (mergeCtx p u) k = lookupKey p k) := by
  induction u generalizing p with
  | nil =>
    exact ⟨fun v hv => by simp [lookupKey] at hv, fun _ => rfl⟩
  | cons a u ih =>
    simp only [List.map_cons, List.nodup_cons] at hu
    obtain ⟨hnotin, hnodup⟩ := hu
    have hmc : mergeCtx p (a :: u) = mergeCtx (setKey p a.1 a.2) u := rfl
    constructor
    · intro v hv
      rw [lookupKey_cons] at hv
      by_cases ha : a.1 = k
      · rw [if_pos (beq_iff_eq.mpr ha)] at hv
        have hnone : lookupKey u k = none := by
          apply lookupKey_none_of_not_mem
          rw [← ha]
          exact hnotin
        rw [hmc, (ih hnodup (setKey p a.1 a.2)).2 hnone, lookupKey_setKey,
          if_pos ha.symm]
        exact hv
      · rw [if_neg (by simp [beq_eq_false_iff_ne.mpr ha])] at hv
        rw [hmc]
        exact (ih hnodup _).1 v hv
    · intro hnone
      rw [lookupKey_cons] at hnone
      by_cases ha : a.1 = k
      · rw [if_pos (beq_iff_eq.mpr ha)] at hnone
        cases hnone
      · rw [if_neg (by simp [beq_eq_false_iff_ne.mpr ha])] at hnone
        rw [hmc, (ih hnodup _).2 hnone, lookupKey_setKey,
          if_neg (fun h => ha h.symm)]

theorem jsTruthy_some (s : String) (hs : s ≠ "") : jsTruthy (some s) = true := by
  have he : s.isEmpty = false := by
    rw [Bool.eq_false_iff]
    intro h
    exact hs ((String.isEmpty_iff s).mp h)
  simp [jsTruthy, he]


/-- The tail of actions a run performs when a handler names no next state. -/
def completionTail (onf : Bool) (s : String) (c : Ctx) (ts : Nat) : List RunAct :=
  RunAct.histPush ⟨s, c, ts⟩ :: RunAct.emit (.stateCompletion s c) ::
    (if onf then [RunAct.finishCall ⟨s, c, ts⟩] else [])

theorem runLoop_step_terminal (reg : Registry) (onf : Bool) (fuel : Nat)
    (s : String) (h : Handler) (ctx : Ctx) (t : Nat)
    (hs : s ≠ "") (hh : lookupHandler reg s = some h)
    (hn : jsTruthy (h ctx).nextState = false) :
    runLoop reg onf (fuel + 1) (some s) ctx t =
      (RunAct.histPush ⟨s, ctx, t⟩ ::
        RunAct.emit (.stateTransition s none ctx) ::
        (h ctx).dispatched.map (fun p => RunAct.emit (.customEvent p.1 p.2)) ++
        completionTail onf s (mergeCtx ctx (h ctx).context) (t + 1),
       RunResult.ok) := by
  simp only [runLoop, jsTruthy_some s hs, if_true, Option.getD_some, hh, hn,
    Bool.false_eq_true, if_false, completionTail]

theorem runLoop_step_transition (reg : Registry) (onf : Bool) (fuel : Nat)
    (s : String) (h : Handler) (ctx : Ctx) (t : Nat)
    (hs : s ≠ "") (hh : lookupHandler reg s = some h)
    (hn : jsTruthy (h ctx).nextState = true) :
    runLoop reg onf (fuel + 1) (some s) ctx t =
      (RunAct.histPush ⟨s, ctx, t⟩ ::
        RunAct.emit (.stateTransition s none ctx) ::
        (h ctx).dispatched.map (fun p => RunAct.emit (.customEvent p.1 p.2)) ++
        RunAct.emit (.stateTransition s (some ((h ctx).nextState.getD ""))
          (mergeCtx ctx (h ctx).context)) ::
        (runLoop reg onf fuel (some ((h ctx).nextState.getD ""))
          (mergeCtx ctx (h ctx).context) (t + 1)).1,
       (runLoop reg onf fuel (some ((h ctx).nextState.getD ""))
          (mergeCtx ctx (h ctx).context) (t + 1)).2) := by
  simp only [runLoop, jsTruthy_some s hs, if_true, Option.getD_some, hh, hn,
    Bool.false_eq_true, if_false]

theorem runLoop_step_missing (reg : Registry) (onf : Bool) (fuel : Nat)
    (s : String) (ctx : Ctx) (t : Nat)
    (hs : s ≠ "") (hh : lookupHandler reg s = none) :
    runLoop reg onf (fuel + 1) (some s) ctx t = ([], RunResult.stateNotFound s) := by
  simp only [runLoop, jsTruthy_some s hs, if_true, Option.getD_some, hh]


theorem countP_completion_custom (l : List (String × Val)) :
    (l.map (fun p => RunAct.emit (.customEvent p.1 p.2))).countP
      isCompletionAct = 0 := by
  induction l with
  | nil => rfl
  | cons a l ih => simp [List.countP_cons, isCompletionAct, ih]

theorem countP_finish_custom (l : List (String × Val)) :
    (l.map (fun p => RunAct.emit (.customEvent p.1 p.2))).countP
      isFinishAct = 0 := by
  induction l with
  | nil => rfl
  | cons a l ih => simp [List.countP_cons, isFinishAct, ih]

theorem runLoop_step_falsy (reg : Registry) (onf : Bool) (n : Nat)
    (cur : Option String) (ctx : Ctx) (t : Nat) (hc : jsTruthy cur = false) :
    runLoop reg onf (n + 1) cur ctx t = ([], RunResult.ok) := by
  simp only [runLoop, hc, Bool.false_eq_true, if_false]

theorem runLoop_shape (reg : Registry) (onf : Bool) :
    ∀ (fuel : Nat) (cur : Option String) (ctx : Ctx) (t : Nat),
      ((runLoop reg onf fuel cur ctx t).1.countP isCompletionAct = 0 ∧
       (runLoop reg onf fuel cur ctx t).1.countP isFinishAct = 0)
      ∨ ∃ l s c ts,
          (runLoop reg onf fuel cur ctx t).2 = RunResult.ok ∧
          (runLoop reg onf fuel cur ctx t).1 = l ++ completionTail onf s c ts ∧
          l.countP isCompletionAct = 0 ∧ l.countP isFinishAct = 0 := by
  intro fuel
  induction fuel with
  | zero =>
    intro cur ctx t
    left
    exact ⟨rfl, rfl⟩
  | succ n ih =>
    intro cur ctx t
    match cur with
    | none =>
      left
      exact ⟨rfl, rfl⟩
    | some s =>
      by_cases hs : s = ""
      · subst hs
        rw [runLoop_step_falsy reg onf n (some "") ctx t (by rfl)]
        left
        exact ⟨rfl, rfl⟩
      · cases hl : lookupHandler reg s with
        | none =>
          rw [runLoop_step_missing reg onf n s ctx t hs hl]
          left
          exact ⟨rfl, rfl⟩
        | some handler =>
          by_cases hn : jsTruthy (handler ctx).nextState = true
          · rw [runLoop_step_transition reg onf n s handler ctx t hs hl hn]
            rcases ih (some ((handler ctx).nextState.getD ""))
                (mergeCtx ctx (handler ctx).context) (t + 1) with
              ⟨h1, h2⟩ | ⟨l, s', c, ts, hr, hacts, hl1, hl2⟩
            · left
              constructor
              · simp [List.countP_cons, List.countP_append,
                  countP_completion_custom, isCompletionAct, h1]
              · simp [List.countP_cons, List.countP_append,
                  countP_finish_custom, isFinishAct, h2]
            · right
              refine ⟨RunAct.histPush ⟨s, ctx, t⟩ ::
                RunAct.emit (.stateTransition s none ctx) ::
                (handler ctx).dispatched.map
                  (fun p => RunAct.emit (.customEvent p.1 p.2)) ++
                RunAct.emit (.stateTransition s
                  (some ((handler ctx).nextState.getD ""))
                  (mergeCtx ctx (handler ctx).context)) :: l,
                s', c, ts, hr, ?_, ?_, ?_⟩
              · simp only [hacts, List.cons_append, List.append_assoc]
              · simp [List.countP_cons, List.countP_append,
                  countP_completion_custom, isCompletionAct, hl1]
              · simp [List.countP_cons, List.countP_append,
                  countP_finish_custom, isFinishAct, hl2]
          · have hn' : jsTruthy (handler ctx).nextState = false :=
              Bool.eq_false_iff.mpr hn
            rw [runLoop_step_terminal reg onf n s handler ctx t hs hl hn']
            right
            refine ⟨RunAct.histPush ⟨s, ctx, t⟩ ::
              RunAct.emit (.stateTransition s none ctx) ::
              (handler ctx).dispatched.map
                (fun p => RunAct.emit (.customEvent p.1 p.2)),
              s, mergeCtx ctx (handler ctx).context, t + 1, rfl, rfl, ?_, ?_⟩
            · simp [List.countP_cons, countP_completion_custom, isCompletionAct]
            · simp [List.countP_cons, countP_finish_custom, isFinishAct]

theorem eventsOf_append (a b : List RunAct) :
    eventsOf (a ++ b) = eventsOf a ++ eventsOf b := by
  simp [eventsOf, List.filterMap_append]

theorem historyOf_append (a b : List RunAct) :
    historyOf (a ++ b) = historyOf a ++ historyOf b := by
  simp [historyOf, List.filterMap_append]

theorem eventsOf_completionTail (onf : Bool) (s : String) (c : Ctx) (ts : Nat) :
    eventsOf (completionTail onf s c ts) = [.stateCompletion s c] := by
  cases onf <;> rfl

theorem historyOf_completionTail (onf : Bool) (s : String) (c : Ctx) (ts : Nat) :
    historyOf (completionTail onf s c ts) = [⟨s, c, ts⟩] := by
  cases onf <;> rfl

theorem countP_completion_completionTail (onf : Bool) (s : String) (c : Ctx)
    (ts : Nat) : (completionTail onf s c ts).countP isCompletionAct = 1 := by
  cases onf <;> rfl

theorem countP_finish_completionTail (onf : Bool) (s : String) (c : Ctx)
    (ts : Nat) :
    (completionTail onf s c ts).countP isFinishAct = if onf then 1 else 0 := by
  cases onf <;> rfl

theorem eventsOf_customActs (l : List (String × Val)) :
    eventsOf (l.map (fun p => RunAct.emit (.customEvent p.1 p.2))) =
      l.map (fun p => OrchestraEvent.customEvent p.1 p.2) := by
  induction l with
  | nil => rfl
  | cons a l ih => simp [eventsOf, actionEvent] at ih ⊢; exact ih

theorem eventsOf_step (s : String) (ctx : Ctx) (t : Nat)
    (l : List (String × Val)) (rest : List RunAct) :
    eventsOf (RunAct.histPush ⟨s, ctx, t⟩ ::
        RunAct.emit (.stateTransition s none ctx) ::
        (l.map (fun p => RunAct.emit (.customEvent p.1 p.2)) ++ rest)) =
      .stateTransition s none ctx ::
        l.map (fun p => OrchestraEvent.customEvent p.1 p.2) ++ eventsOf rest := by
  simp only [eventsOf, List.filterMap_cons, actionEvent, List.filterMap_append]
  rw [← eventsOf_customActs l]
  simp [eventsOf]

/-- Claim C1: for every run whose current handler returns a result with no
next state, exactly one `state_completion` event carrying the post-merge
context is produced, the event sequence ends immediately after it with no
further events and no error (no next state is ordinary termination, never a
missing-handler error), a second terminal HistoryEntry is appended before
the completion event, and the final History entry's context equals the
context carried by that last `state_completion` event. -/
theorem claim1_terminal_completion (reg : Registry) (onf : Bool)
    (fuel fuel2 : Nat) (cur : Option String) (ctx ctx2 : Ctx) (t t2 : Nat)
    (s : String) (h : Handler)
    (hs : s ≠ "") (hh : lookupHandler reg s = some h)
    (hn : jsTruthy (h ctx2).nextState = false) :
    ((runLoop reg onf fuel cur ctx t).1.countP isCompletionAct ≤ 1 ∧
     ((runLoop reg onf fuel cur ctx t).1.countP isCompletionAct = 1 →
       ∃ l s' c ts,
         (runLoop reg onf fuel cur ctx t).2 = RunResult.ok ∧
         (runLoop reg onf fuel cur ctx t).1 = l ++ completionTail onf s' c ts ∧
         eventsOf (runLoop reg onf fuel cur ctx t).1 =
           eventsOf l ++ [.stateCompletion s' c] ∧
         historyOf (runLoop reg onf fuel cur ctx t).1 =
           historyOf l ++ [⟨s', c, ts⟩])) ∧
    runLoop reg onf (fuel2 + 1) (some s) ctx2 t2 =
      (RunAct.histPush ⟨s, ctx2, t2⟩ ::
        RunAct.emit (.stateTransition s none ctx2) ::
        (h ctx2).dispatched.map (fun p => RunAct.emit (.customEvent p.1 p.2)) ++
        completionTail onf s (mergeCtx ctx2 (h ctx2).context) (t2 + 1),
       RunResult.ok) := by
  constructor
  · rcases runLoop_shape reg onf fuel cur ctx t with ⟨h1, _⟩ |
      ⟨l, s', c, ts, hr, hacts, hl1, _⟩
    · refine ⟨by omega, fun hone => absurd (h1 ▸ hone) (by omega)⟩
    · have hcount : (runLoop reg onf fuel cur ctx t).1.countP isCompletionAct = 1 := by
        rw [hacts, List.countP_append, hl1, countP_completion_completionTail]
      refine ⟨by omega, fun _ => ⟨l, s', c, ts, hr, hacts, ?_, ?_⟩⟩
      · rw [hacts, eventsOf_append, eventsOf_completionTail]
      · rw [hacts, historyOf_append, historyOf_completionTail]
  · exact runLoop_step_terminal reg onf fuel2 s h ctx2 t2 hs hh hn

/-- The single-state registry used as a concrete input for the run-loop
claims: its handler dispatches nothing and names no next state. -/
def haltHandler : Handler := fun _ => ⟨none, [("value", .vstr "done")], []⟩

/-- A registry with the single state `halt`. -/
def haltReg : Registry := [("halt", haltHandler)]

/-- Witness for C1 at the concrete registry `haltReg`. -/
theorem claim1_witness :
    runLoop haltReg false (3 + 1) (some "halt") [] 7 =
      ([RunAct.histPush ⟨"halt", [], 7⟩,
        RunAct.emit (.stateTransition "halt" none []),
        RunAct.histPush ⟨"halt", [("value", .vstr "done")], 8⟩,
        RunAct.emit (.stateCompletion "halt" [("value", .vstr "done")])],
       RunResult.ok) :=
  (claim1_terminal_completion haltReg false 5 3 none [] [] 0 7 "halt"
    haltHandler (by decide) rfl rfl).2

/-- Claim C2: for every handler invocation that calls dispatch N times,
exactly N `custom_event` events appear between that state's entry
`state_transition` event (no `to`) and that state's subsequent transition
or completion event, in the order the handler issued the dispatch calls;
the queued events are emitted only once the handler's result is available
(`dispatch` only buffers, and the buffer is drained after the handler
returns). -/
theorem claim2_dispatch_between (reg : Registry) (onf : Bool) (fuel : Nat)
    (s : String) (h : Handler) (ctx : Ctx) (t : Nat)
    (hs : s ≠ "") (hh : lookupHandler reg s = some h) :
    ∃ rest r,
      runLoop reg onf (fuel + 1) (some s) ctx t =
        (RunAct.histPush ⟨s, ctx, t⟩ ::
          RunAct.emit (.stateTransition s none ctx) ::
          (h ctx).dispatched.map (fun p => RunAct.emit (.customEvent p.1 p.2)) ++
          rest, r) ∧
      eventsOf (runLoop reg onf (fuel + 1) (some s) ctx t).1 =
        .stateTransition s none ctx ::
          (h ctx).dispatched.map (fun p => OrchestraEvent.customEvent p.1 p.2) ++
          eventsOf rest ∧
      (eventsOf rest).head? =
        some (if jsTruthy (h ctx).nextState then
          .stateTransition s (some ((h ctx).nextState.getD ""))
            (mergeCtx ctx (h ctx).context)
        else .stateCompletion s (mergeCtx ctx (h ctx).context)) := by
  by_cases hn : jsTruthy (h ctx).nextState = true
  · refine ⟨RunAct.emit (.stateTransition s (some ((h ctx).nextState.getD ""))
        (mergeCtx ctx (h ctx).context)) ::
      (runLoop reg onf fuel (some ((h ctx).nextState.getD ""))
        (mergeCtx ctx (h ctx).context) (t + 1)).1,
      (runLoop reg onf fuel (some ((h ctx).nextState.getD ""))
        (mergeCtx ctx (h ctx).context) (t + 1)).2, ?_, ?_, ?_⟩
    · exact runLoop_step_transition reg onf fuel s h ctx t hs hh hn
    · rw [runLoop_step_transition reg onf fuel s h ctx t hs hh hn]
      exact eventsOf_step s ctx t (h ctx).dispatched _
    · simp [hn, eventsOf, actionEvent]
  · have hn' : jsTruthy (h ctx).nextState = false := Bool.eq_false_iff.mpr hn
    refine ⟨completionTail onf s (mergeCtx ctx (h ctx).context) (t + 1),
      RunResult.ok, ?_, ?_, ?_⟩
    · exact runLoop_step_terminal reg onf fuel s h ctx t hs hh hn'
    · rw [runLoop_step_terminal reg onf fuel s h ctx t hs hh hn']
      exact eventsOf_step s ctx t (h ctx).dispatched _
    · rw [eventsOf_completionTail, hn']
      simp

/-- Witness for C2: a handler that dispatches twice. -/
def twoDispatchHandler : Handler :=
  fun _ => ⟨none, [], [("first", .vnat 1), ("second", .vnat 2)]⟩

/-- A registry with the single state `talk`, whose handler dispatches two
custom events. -/
def talkReg : Registry := [("talk", twoDispatchHandler)]

/-- Witness for C2 at the concrete registry `talkReg`. -/
theorem claim2_witness :
    ∃ rest r,
      runLoop talkReg false (0 + 1) (some "talk") [] 0 =
        (RunAct.histPush ⟨"talk", [], 0⟩ ::
          RunAct.emit (.stateTransition "talk" none []) ::
          (twoDispatchHandler []).dispatched.map
            (fun p => RunAct.emit (.customEvent p.1 p.2)) ++
          rest, r) ∧
      eventsOf (runLoop talkReg false (0 + 1) (some "talk") [] 0).1 =
        .stateTransition "talk" none [] ::
          (twoDispatchHandler []).dispatched.map
            (fun p => OrchestraEvent.customEvent p.1 p.2) ++
          eventsOf rest ∧
      (eventsOf rest).head? =
        some (if jsTruthy (twoDispatchHandler []).nextState then
          .stateTransition "talk"
            (some ((twoDispatchHandler []).nextState.getD ""))
            (mergeCtx [] (twoDispatchHandler []).context)
        else .stateCompletion "talk" (mergeCtx [] (twoDispatchHandler []).context)) :=
  claim2_dispatch_between talkReg false 0 "talk" twoDispatchHandler [] 0
    (by decide) rfl

/-- Claim C5: for every run with a completion callback provided, when the
terminal state's handler returns no next state the callback is invoked
exactly once, with the final-state record {agent (the state), context (the
final merged context), timestamp}, and the callback is awaited after the
completion event and before the event sequence terminates (it is the last
action of the trace). -/
theorem claim5_onfinish (reg : Registry) (fuel fuel2 : Nat)
    (cur : Option String) (ctx ctx2 : Ctx) (t t2 : Nat) (s : String)
    (h : Handler) (hs : s ≠ "") (hh : lookupHandler reg s = some h)
    (hn : jsTruthy (h ctx2).nextState = false) :
    ((runLoop reg true fuel cur ctx t).1.countP isFinishAct ≤ 1 ∧
     ((runLoop reg true fuel cur ctx t).1.countP isFinishAct = 1 →
       ∃ l s' c ts,
         (runLoop reg true fuel cur ctx t).2 = RunResult.ok ∧
         (runLoop reg true fuel cur ctx t).1 =
           l ++ [RunAct.histPush ⟨s', c, ts⟩,
                 RunAct.emit (.stateCompletion s' c),
                 RunAct.finishCall ⟨s', c, ts⟩] ∧
         historyOf (runLoop reg true fuel cur ctx t).1 =
           historyOf l ++ [⟨s', c, ts⟩])) ∧
    runLoop reg true (fuel2 + 1) (some s) ctx2 t2 =
      (RunAct.histPush ⟨s, ctx2, t2⟩ ::
        RunAct.emit (.stateTransition s none ctx2) ::
        (h ctx2).dispatched.map (fun p => RunAct.emit (.customEvent p.1 p.2)) ++
        [RunAct.histPush ⟨s, mergeCtx ctx2 (h ctx2).context, t2 + 1⟩,
         RunAct.emit (.stateCompletion s (mergeCtx ctx2 (h ctx2).context)),
         RunAct.finishCall ⟨s, mergeCtx ctx2 (h ctx2).context, t2 + 1⟩],
       RunResult.ok) ∧
    (runLoop reg true (fuel2 + 1) (some s) ctx2 t2).1.countP isFinishAct = 1 := by
  refine ⟨?_, ?_, ?_⟩
  · rcases runLoop_shape reg true fuel cur ctx t with ⟨_, h2⟩ |
      ⟨l, s', c, ts, hr, hacts, _, hl2⟩
    · exact ⟨by omega, fun hone => absurd (h2 ▸ hone) (by omega)⟩
    · have htail : completionTail true s' c ts =
          [RunAct.histPush ⟨s', c, ts⟩,
           RunAct.emit (.stateCompletion s' c),
           RunAct.finishCall ⟨s', c, ts⟩] := rfl
      have hcount : (runLoop reg true fuel cur ctx t).1.countP isFinishAct = 1 := by
        rw [hacts, List.countP_append, hl2, countP_finish_completionTail]
        rfl
      refine ⟨by omega, fun _ => ⟨l, s', c, ts, hr, by rw [hacts, htail], ?_⟩⟩
      rw [hacts, historyOf_append, historyOf_completionTail]
  · exact runLoop_step_terminal reg true fuel2 s h ctx2 t2 hs hh hn
  · rw [runLoop_step_terminal reg true fuel2 s h ctx2 t2 hs hh hn]
    simp [List.countP_cons, List.countP_append, countP_finish_custom,
      isFinishAct, countP_finish_completionTail, completionTail]

/-- Witness for C5 at the concrete registry `haltReg`, with a callback. -/
theorem claim5_witness :
    runLoop haltReg true (2 + 1) (some "halt") [] 0 =
      ([RunAct.histPush ⟨"halt", [], 0⟩,
        RunAct.emit (.stateTransition "halt" none []),
        RunAct.histPush ⟨"halt", [("value", .vstr "done")], 1⟩,
        RunAct.emit (.stateCompletion "halt" [("value", .vstr "done")]),
        RunAct.finishCall ⟨"halt", [("value", .vstr "done")], 1⟩],
       RunResult.ok) :=
  (claim5_onfinish haltReg 4 2 none [] [] 0 0 "halt" haltHandler (by decide)
    rfl rfl).2.1

/-- Claim C3: for every prior context and every partial update returned by
a handler, the merge producing the next context is shallow: every key
present in the update replaces the prior value for that key, every key
absent from the update retains its prior value, and nested structures are
not deep-merged (previous {a:1,b:2} merged with {b:3} yields {a:1,b:3};
an object-valued key is replaced wholesale). -/
theorem claim3_shallow_merge (p u : Ctx) (k : String)
    (hu : (u.map Prod.fst).Nodup) :
    (∀ v, lookupKey u k = some v → lookupKey (mergeCtx p u) k = some v) ∧
    (lookupKey u k = none → lookupKey (mergeCtx p u) k = lookupKey p k) ∧
    mergeCtx [("a", .vnat 1), ("b", .vnat 2)] [("b", .vnat 3)] =
      [("a", .vnat 1), ("b", .vnat 3)] ∧
    mergeCtx [("a", .vobj [("x", .vnat 1), ("y", .vnat 2)])]
        [("a", .vobj [("y", .vnat 3)])] =
      [("a", .vobj [("y", .vnat 3)])] :=
  ⟨(lookupKey_mergeCtx u hu p k).1, (lookupKey_mergeCtx u hu p k).2, rfl, rfl⟩

/-- Witness for C3 on the spec's own example. -/
theorem claim3_witness :
    lookupKey (mergeCtx [("a", Val.vnat 1), ("b", Val.vnat 2)]
      [("b", Val.vnat 3)]) "b" = some (Val.vnat 3) :=
  (claim3_shallow_merge [("a", Val.vnat 1), ("b", Val.vnat 2)]
    [("b", Val.vnat 3)] "b" (by decide)).1 (Val.vnat 3) rfl

/-- Claim C4: for every run started on a non-empty state name absent from
the registry, consuming the event sequence fails with the
`Agent "name" not found` error naming the missing state, at step 1 of the
first iteration; no event is yielded and no HistoryEntry is appended for
that invocation attempt. -/
theorem claim4_missing_state (reg : Registry) (onf : Bool) (fuel : Nat)
    (s : String) (ctx : Ctx) (hs : s ≠ "")
    (hh : lookupHandler reg s = none) :
    runOrchestra reg onf (fuel + 1) s ctx = ([], RunResult.stateNotFound s) ∧
    eventsOf (runOrchestra reg onf (fuel + 1) s ctx).1 = [] ∧
    historyOf (runOrchestra reg onf (fuel + 1) s ctx).1 = [] ∧
    ∃ pre suf, stateNotFoundMessage s = pre ++ s ++ suf := by
  have hrun : runOrchestra reg onf (fuel + 1) s ctx =
      runLoop reg onf (fuel + 1) (some s) ctx 0 := by
    unfold runOrchestra
    rw [if_neg hs]
  have hres := runLoop_step_missing reg onf fuel s ctx 0 hs hh
  rw [hrun, hres]
  exact ⟨rfl, rfl, rfl, "Agent \"", "\" not found", rfl⟩

/-- Witness for C4: the name `missing` is not registered in `haltReg`. -/
theorem claim4_witness :
    runOrchestra haltReg false (4 + 1) "missing" [] =
      ([], RunResult.stateNotFound "missing") :=
  (claim4_missing_state haltReg false 4 "missing" [] (by decide) rfl).1

/-- Claim C6: for the registry {start→middle, middle→end, end→terminal}
where each handler increments a counter by 1 starting from 0 and the run
starts at `start`, the event sequence has exactly 7 events in the fixed
order (entry transition for start, the custom event, transition to middle,
entry for middle, transition to end, entry for end, completion), the final
context's counter equals 3, and the History has exactly 4 entries. -/
theorem claim6_demo_scenario :
    eventsOf (runOrchestra demoReg false 10 "start" [("count", Val.vnat 0)]).1 =
      [.stateTransition "start" none [("count", .vnat 0)],
       .customEvent "custom-event" (.vstr "Starting"),
       .stateTransition "start" (some "middle") [("count", .vnat 1)],
       .stateTransition "middle" none [("count", .vnat 1)],
       .stateTransition "middle" (some "end") [("count", .vnat 2)],
       .stateTransition "end" none [("count", .vnat 2)],
       .stateCompletion "end" [("count", .vnat 3), ("message", .vstr "Done")]] ∧
    (eventsOf (runOrchestra demoReg false 10 "start" [("count", Val.vnat 0)]).1).length = 7 ∧
    historyOf (runOrchestra demoReg false 10 "start" [("count", Val.vnat 0)]).1 =
      [⟨"start", [("count", .vnat 0)], 0⟩,
       ⟨"middle", [("count", .vnat 1)], 1⟩,
       ⟨"end", [("count", .vnat 2)], 2⟩,
       ⟨"end", [("count", .vnat 3), ("message", .vstr "Done")], 3⟩] ∧
    (historyOf (runOrchestra demoReg false 10 "start" [("count", Val.vnat 0)]).1).length = 4 ∧
    getCount [("count", Val.vnat 3), ("message", Val.vstr "Done")] = 3 ∧
    (runOrchestra demoReg false 10 "start" [("count", Val.vnat 0)]).2 =
      RunResult.ok :=
  ⟨rfl, rfl, rfl, rfl, rfl, rfl⟩

/-- Claim C7: for every chunk stream processed by the Stream Adapter,
whenever a tool-call chunk's name contains the handoff marker, exactly one
additional synthesized tool-result chunk is dispatched immediately after
that chunk (before the next source chunk), carrying the same `toolCallId`
and `toolName` and the fixed placeholder result `'Done'`; chunks whose
name lacks the marker trigger no extra dispatch. -/
theorem claim7_handoff (pre post : List Val) (c c2 : Val)
    (hc : isHandoffToolCall c = true) (hc2 : isHandoffToolCall c2 = false) :
    processStreamDispatches (pre ++ c :: post) =
      processStreamDispatches pre ++
        (streamChunkEventName, c) ::
        (streamChunkEventName, synthToolResult c) ::
        processStreamDispatches post ∧
    processStreamDispatches (pre ++ c2 :: post) =
      processStreamDispatches pre ++
        (streamChunkEventName, c2) :: processStreamDispatches post ∧
    getField (synthToolResult c) "toolCallId" =
      some ((getField c "toolCallId").getD .vnull) ∧
    getField (synthToolResult c) "toolName" =
      some ((getField c "toolName").getD .vnull) ∧
    getField (synthToolResult c) "result" = some (.vstr "Done") := by
  refine ⟨?_, ?_, rfl, rfl, rfl⟩
  · simp [processStreamDispatches, List.flatMap_append, List.flatMap_cons,
      dispatchesForChunk, hc]
  · simp [processStreamDispatches, List.flatMap_append, List.flatMap_cons,
      dispatchesForChunk, hc2]

/-- A concrete handoff tool call used by the C7 witness. -/
def handoffCallChunk : Val :=
  .vobj [("type", .vstr "tool-call"), ("toolCallId", .vstr "call-1"),
         ("toolName", .vstr "handoffToPlanner"), ("args", .vobj [])]

/-- Witness for C7: one handoff tool call between two text chunks. -/
theorem claim7_witness :
    processStreamDispatches [textChunk "a", handoffCallChunk, textChunk "b"] =
      processStreamDispatches [textChunk "a"] ++
        (streamChunkEventName, handoffCallChunk) ::
        (streamChunkEventName, synthToolResult handoffCallChunk) ::
        processStreamDispatches [textChunk "b"] :=
  (claim7_handoff [textChunk "a"] [textChunk "b"] handoffCallChunk
    (textChunk "x") (by decide) (by decide)).1

/-- Claim C8: for every source consumed by the Stream Adapter, every chunk
— including error-typed chunks, which are logged but do not abort
iteration — is forwarded to the Dispatch Channel exactly once in source
order under the fixed event name, and the adapter resolves to
{finishReason, toolCalls, messages} equal to the source's side-channel
values; a source yielding three text chunks then a finish chunk causes
exactly 4 dispatches and the resolved finishReason equals the source's
reported reason. -/
theorem claim8_stream_adapter (stream : StreamResult) (pre post : List Val)
    (e : Val) (r t1 t2 t3 : String) (tcs msgs : List Val)
    (he : stream.fullStream = pre ++ errorChunk e :: post) :
    (processStream stream).1 =
      (stream.finishReason, stream.toolCalls, stream.response.messages) ∧
    (processStream stream).2 =
      processStreamDispatches pre ++
        (streamChunkEventName, errorChunk e) :: processStreamDispatches post ∧
    processStreamLogs stream.fullStream =
      processStreamLogs pre ++ e :: processStreamLogs post ∧
    processStream ⟨some r, tcs, ⟨msgs⟩,
        [textChunk t1, textChunk t2, textChunk t3, finishChunk r]⟩ =
      ((some r, tcs, msgs),
       [(streamChunkEventName, textChunk t1),
        (streamChunkEventName, textChunk t2),
        (streamChunkEventName, textChunk t3),
        (streamChunkEventName, finishChunk r)]) := by
  refine ⟨rfl, ?_, ?_, rfl⟩
  · show processStreamDispatches stream.fullStream = _
    rw [he]
    simp [processStreamDispatches, List.flatMap_append, List.flatMap_cons]
    rfl
  · rw [he]
    simp [processStreamLogs, List.filterMap_append, List.filterMap_cons]
    rfl

/-- Witness for C8: a concrete source whose stream is one text chunk, an
error chunk, then a finish chunk. -/
theorem claim8_witness :
    (processStream ⟨some "stop", [], ⟨[]⟩,
        [textChunk "hi", errorChunk (Val.vstr "boom"), finishChunk "stop"]⟩).2 =
      processStreamDispatches [textChunk "hi"] ++
        (streamChunkEventName, errorChunk (Val.vstr "boom")) ::
        processStreamDispatches [finishChunk "stop"] :=
  (claim8_stream_adapter
    ⟨some "stop", [], ⟨[]⟩,
      [textChunk "hi", errorChunk (Val.vstr "boom"), finishChunk "stop"]⟩
    [textChunk "hi"] [finishChunk "stop"] (Val.vstr "boom")
    "stop" "x" "y" "z" [] [] rfl).2.1

theorem encodeChunk_unknown (data : Val) (hk : chunkTypeKnown data = false) :
    ∃ m, encodeChunk data = .error m := by
  unfold encodeChunk
  unfold chunkTypeKnown at hk
  cases hg : getField data "type" with
  | none => exact ⟨_, rfl⟩
  | some v =>
    rw [hg] at hk
    cases v with
    | vstr t =>
      have hk' : knownChunkTypes.contains t = false := hk
      simp only [knownChunkTypes, List.contains_cons, Bool.or_eq_false_iff,
        beq_eq_false_iff_ne, List.contains_nil] at hk'
      obtain ⟨h1, h2, h3, h4, h5, h6, h7, h8, h9, h10, h11, h12, -⟩ := hk'
      refine ⟨"Unknown chunk type: " ++ t, ?_⟩
      show encodeTyped data t = Except.error ("Unknown chunk type: " ++ t)
      simp [encodeTyped, h1, h2, h3, h4, h5, h6, h7, h8, h9, h10, h11, h12]
    | vnull => exact ⟨_, rfl⟩
    | vnan => exact ⟨_, rfl⟩
    | vbool b => exact ⟨_, rfl⟩
    | vnat nn => exact ⟨_, rfl⟩
    | vlist xs => exact ⟨_, rfl⟩
    | vobj fs => exact ⟨_, rfl⟩

/-- Claim C9: for every custom event bearing the stream-chunk event name
whose chunk's type lies outside the Event Encoder's known catalogue of
shapes, encoding raises a hard error (the chunk is never silently
dropped); every event that is not such a custom event is ignored by the
encoder and produces no wire output and no error. -/
theorem claim9_encoder (data d : Val) (s s2 n : String) (toS : Option String)
    (c : Ctx) (hk : chunkTypeKnown data = false)
    (hn : n ≠ streamChunkEventName) :
    (∃ m, encodeOrchestraEvent
      (.customEvent streamChunkEventName data) = .error m) ∧
    (∃ m, orchestraToAIStream
      [.customEvent streamChunkEventName data] = .error m) ∧
    encodeOrchestraEvent (.stateTransition s toS c) = .ok none ∧
    encodeOrchestraEvent (.stateCompletion s2 c) = .ok none ∧
    encodeOrchestraEvent (.customEvent n d) = .ok none := by
  obtain ⟨m, hm⟩ := encodeChunk_unknown data hk
  have hev : encodeOrchestraEvent
      (.customEvent streamChunkEventName data) = .error m := by
    simp [encodeOrchestraEvent, hm, Except.map]
  refine ⟨⟨m, hev⟩, ⟨m, ?_⟩, rfl, rfl, ?_⟩
  · simp [orchestraToAIStream, hev]
  · simp [encodeOrchestraEvent, hn]

/-- Witness for C9: a chunk of the unrecognized type `bogus` inside a
stream-chunk custom event, and a differently named custom event. -/
theorem claim9_witness :
    (∃ m, encodeOrchestraEvent (.customEvent streamChunkEventName
      (Val.vobj [("type", Val.vstr "bogus")])) = .error m) ∧
    encodeOrchestraEvent (.customEvent "status" (Val.vstr "ok")) = .ok none := by
  have h := claim9_encoder (Val.vobj [("type", Val.vstr "bogus")])
    (Val.vstr "ok") "a" "b" "status" none [] (by decide) (by decide)
  exact ⟨h.1, h.2.2.2.2⟩

/-- Claim C10: for every registry with at least one entry, a run created
with a falsy starting state name (the empty string) does not fail with a
missing-state error: it starts execution at the first-registered state of
the registry instead; similarly, a handler returning an empty-string next
state is treated as returning no next state, terminating the run rather
than transitioning to a state named by the empty string. -/
theorem claim10_falsy_names (reg : Registry) (k0 : String) (h0 : Handler)
    (rest : Registry) (onf : Bool) (fuel fuel2 : Nat) (ctx ctx2 : Ctx)
    (t2 : Nat) (s : String) (h : Handler)
    (hreg : reg = (k0, h0) :: rest)
    (hs : s ≠ "") (hh : lookupHandler reg s = some h)
    (hnext : (h ctx2).nextState = some "") :
    runOrchestra reg onf fuel "" ctx = runLoop reg onf fuel (some k0) ctx 0 ∧
    lookupHandler reg k0 = some h0 ∧
    runLoop reg onf (fuel2 + 1) (some s) ctx2 t2 =
      (RunAct.histPush ⟨s, ctx2, t2⟩ ::
        RunAct.emit (.stateTransition s none ctx2) ::
        (h ctx2).dispatched.map (fun p => RunAct.emit (.customEvent p.1 p.2)) ++
        completionTail onf s (mergeCtx ctx2 (h ctx2).context) (t2 + 1),
       RunResult.ok) := by
  subst hreg
  refine ⟨?_, ?_, ?_⟩
  · unfold runOrchestra
    rw [if_pos rfl]
    rfl
  · simp [lookupHandler, List.find?_cons]
  · have hn : jsTruthy (h ctx2).nextState = false := by
      rw [hnext]
      rfl
    exact runLoop_step_terminal _ onf fuel2 s h ctx2 t2 hs hh hn

/-- A handler that names the empty string as its next state. -/
def emptyNextHandler : Handler := fun _ => ⟨some "", [("done", .vbool true)], []⟩

/-- A two-state registry whose second state returns the empty string as its
next state. -/
def falsyReg : Registry :=
  [("first", haltHandler), ("loop", emptyNextHandler)]

/-- Witness for C10 at the concrete registry `falsyReg`. -/
theorem claim10_witness :
    runOrchestra falsyReg false 6 "" [] =
      runLoop falsyReg false 6 (some "first") [] 0 ∧
    runLoop falsyReg false (0 + 1) (some "loop") [] 5 =
      ([RunAct.histPush ⟨"loop", [], 5⟩,
        RunAct.emit (.stateTransition "loop" none []),
        RunAct.histPush ⟨"loop", [("done", .vbool true)], 6⟩,
        RunAct.emit (.stateCompletion "loop" [("done", .vbool true)])],
       RunResult.ok) := by
  have h := claim10_falsy_names falsyReg "first" haltHandler
    [("loop", emptyNextHandler)] false 6 0 [] [] 5 "loop" emptyNextHandler
    rfl (by decide) rfl rfl
  exact ⟨h.1, h.2.2⟩
